import Mathlib

/-!
Verification of the ZV control-variate postprocessing and predictive
evaluation of `hmc/lrhmc.py` (class `LRHMC`).

Shallow embedding conventions:
* numpy float arrays are idealised as exact rationals (`ℚ`); real-valued
  logarithms appear only in the log-loss, over `ℝ`.
* a 2-d numpy array is a `List (List ℚ)` of rows.  Genuine numpy arrays are
  rectangular, so every theorem carries the row-width invariant as a
  hypothesis; on non-rectangular inputs (unreachable for numpy arrays) the
  embedding truncates where numpy would object.
* Python exceptions are modelled by `Except Err`: `ZeroDivisionError`
  (`1 / float(n_iters - 1)` with `n_iters = 1`), `numpy.linalg.LinAlgError`
  on a singular matrix, `IndexError` on an out-of-range row index, and
  numpy `ValueError` on a length mismatch in `np.dot`.
-/

attribute [local semireducible] Rat.add Rat.mul Rat.inv Rat.sub

namespace LCV

/-- Error kinds observable from the embedded operations.  The first four
are the Python exceptions the code in `lrhmc.py` can actually raise
(`ZeroDivisionError`, `numpy.linalg.LinAlgError` for a singular matrix,
`IndexError`, numpy `ValueError`).  `shapeMismatch` is modelled from the
spec: the spec's error taxonomy names a ShapeMismatch validation error, but
no code path in `lrhmc.py` raises such an error; the constructor exists so
that the spec's taxonomy can be compared with the code's behaviour. -/
inductive Err where
  | zeroDivision
  | singularMatrix
  | indexError
  | valueError
  | shapeMismatch
deriving DecidableEq, Repr

instance {ε α : Type} [DecidableEq ε] [DecidableEq α] : DecidableEq (Except ε α) := fun a b =>
  match a, b with
  | Except.error e, Except.error f =>
      if h : e = f then isTrue (by rw [h]) else isFalse (by intro hh; cases hh; exact h rfl)
  | Except.error _, Except.ok _ => isFalse (by intro h; cases h)
  | Except.ok _, Except.error _ => isFalse (by intro h; cases h)
  | Except.ok x, Except.ok y =>
      if h : x = y then isTrue (by rw [h]) else isFalse (by intro hh; cases hh; exact h rfl)

/-- Truncating dot product of two rational vectors (the common core of every
`np.dot` in the file; length equality always holds on the reachable inputs). -/
def dotQ (u v : List ℚ) : ℚ :=
  (List.zipWith (fun a b => a * b) u v).sum

/-- `np.dot` on 1-d arrays: numpy raises a `ValueError` when the lengths
disagree, modelled by `none`. -/
def npDot (u v : List ℚ) : Option ℚ :=
  if u.length = v.length then some (dotQ u v) else none

/-- Column `j` of `np.mean(M, axis = 0)`: the mean of column `j` over all
rows of `M`. -/
def colMean (M : List (List ℚ)) (j : ℕ) : ℚ :=
  ((M.map (fun r => r.getD j 0)).sum) / (M.length : ℚ)

/-- `np.mean(M, axis = 0)` as a length-`d` vector (a genuine numpy array of
width `d` has exactly this mean vector). -/
def meanVec (M : List (List ℚ)) (d : ℕ) : List ℚ :=
  (List.range d).map (fun j => colMean M j)

/-- `np.cov(M, rowvar = 0)`: the unbiased sample covariance matrix of the
columns of `M` (divisor `rows - 1`).  With a single row numpy emits NaN
values (a warning, not an exception); that value is never consumed before an
exception occurs in the code, so the `ℚ` convention `x / 0 = 0` is
harmless here. -/
def npCov (M : List (List ℚ)) (d : ℕ) : Matrix (Fin d) (Fin d) ℚ :=
  Matrix.of fun k l =>
    ((M.map (fun r =>
        (r.getD (k : ℕ) 0 - colMean M (k : ℕ)) * (r.getD (l : ℕ) 0 - colMean M (l : ℕ)))).sum)
      / (((M.length - 1 : ℕ) : ℚ))

/-- Computable determinant of a rational matrix, by Laplace expansion along
column 0 (used so that concrete instances evaluate; proved equal to
Mathlib's `Matrix.det` below). -/
def detQ {d : ℕ} : Matrix (Fin d) (Fin d) ℚ → ℚ :=
  Nat.rec (motive := fun n => Matrix (Fin n) (Fin n) ℚ → ℚ)
    (fun _ => 1)
    (fun n ih A => ∑ i : Fin (n + 1), (-1) ^ (i : ℕ) * A i 0 * ih (A.submatrix i.succAbove Fin.succ))
    d

/-- Computable adjugate of a rational matrix via cofactors (proved equal to
Mathlib's `Matrix.adjugate` below). -/
def adjQ : {d : ℕ} → Matrix (Fin d) (Fin d) ℚ → Matrix (Fin d) (Fin d) ℚ
  | 0, _ => Matrix.of fun i _ => i.elim0
  | _ + 1, A => Matrix.of fun i j =>
      (-1) ^ ((j : ℕ) + (i : ℕ)) * detQ (A.submatrix j.succAbove i.succAbove)

/-- `np.linalg.inv`: fails with `LinAlgError` (here `Err.singularMatrix`)
when the matrix is singular, otherwise returns the inverse, computed via the
adjugate. -/
def matInv (d : ℕ) (A : Matrix (Fin d) (Fin d) ℚ) : Except Err (Matrix (Fin d) (Fin d) ℚ) :=
  if detQ A = 0 then Except.error Err.singularMatrix
  else Except.ok ((detQ A)⁻¹ • adjQ A)


/-- Lines 107-110 of `lrhmc.py`: the accumulation
`current_cov += 1 / float(n_iters - 1) * (sample[i, j] - sample_mean[j]) * (logpost_sample[i, :] - grad_mean)`
over `i in range(n_iters)`.  Inside each iteration Python first evaluates
`1 / float(n_iters - 1)` (a `ZeroDivisionError` when `n_iters = 1`), then
indexes row `i` of both arrays (an `IndexError` when out of range). -/
def crossCov (s g : List (List ℚ)) (niters d : ℕ) (sm gm : List ℚ) (j : ℕ) :
    Except Err (List ℚ) :=
  (List.range niters).foldl
    (fun acc i =>
      Except.bind acc (fun cc =>
        if niters - 1 = 0 then Except.error Err.zeroDivision
        else
          match s.get? i, g.get? i with
          | some si, some gi =>
              Except.ok (List.zipWith (fun a b => a + b) cc
                ((List.zipWith (fun a b => a - b) gi gm).map
                  (fun x => 1 / ((niters : ℚ) - 1) * (si.getD j 0 - sm.getD j 0) * x)))
          | _, _ => Except.error Err.indexError))
    (Except.ok (List.replicate d 0))

/-- `np.matmul(A, v)` for a `d × d` matrix and a length-`d` vector. -/
def matVecL (d : ℕ) (A : Matrix (Fin d) (Fin d) ℚ) (v : List ℚ) : List ℚ :=
  List.ofFn (fun k : Fin d => ∑ l : Fin d, A k l * v.getD (l : ℕ) 0)

/-- Line 111 of `lrhmc.py` for one dimension `j`:
`a = - np.matmul(np.linalg.inv(var_grad), current_cov)`, evaluated after the
`current_cov` loop of lines 107-110. -/
def aCoeff (s g : List (List ℚ)) (niters d : ℕ) (vg : Matrix (Fin d) (Fin d) ℚ)
    (sm gm : List ℚ) (j : ℕ) : Except Err (List ℚ) :=
  Except.bind (crossCov s g niters d sm gm j) (fun cc =>
    Except.bind (matInv d vg) (fun vinv =>
      Except.ok ((matVecL d vinv cc).map (fun x => -x))))

/-- The final contents of `out_sample` (lines 101 and 112-113), given the
per-dimension coefficient vectors `as`:
`out_sample[i, j] = sample[i, j] + np.dot(a_j, logpost_sample[i, :])` is
written for `i in range(n_iters)`; `out_sample` starts as
`np.zeros(sample.shape)`, so rows `i ≥ n_iters` (absent on the reachable
inputs, where the chain has exactly `n_iters` rows) stay zero.  The writes
of the loop nest are to pairwise distinct cells and each cell is written at
most once, so the final array is expressed cell-wise. -/
def outSample (s g : List (List ℚ)) (niters d : ℕ) (as : List (List ℚ)) :
    List (List ℚ) :=
  (List.range s.length).map (fun i =>
    (List.range d).map (fun j =>
      if i < niters then
        (s.getD i []).getD j 0 + dotQ (as.getD j []) (g.getD i [])
      else 0))

/-- Lines 96-113 of `lrhmc.py`: the ZV control-variate adjustment.
`sample_mean`, `grad_mean` and `var_grad` are computed once up front; then
for each dimension `j` (in order) the `current_cov` loop runs and the
coefficient vector `a_j` is computed (raising on a singular `var_grad`),
and column `j` of `out_sample` is written. -/
def postAdjust (s g : List (List ℚ)) (niters d : ℕ) : Except Err (List (List ℚ)) :=
  Except.bind
    ((List.range d).foldl
      (fun acc j => Except.bind acc (fun l =>
        Except.map (fun a => l ++ [a])
          (aCoeff s g niters d (npCov g d) (meanVec s d) (meanVec g d) j)))
      (Except.ok []))
    (fun as => Except.ok (outSample s g niters d as))

/-- Lines 130-134 of `lrhmc.py` for one draw `beta`: the hard prediction
vector `y_pred` over the test rows, `y_pred[i] = int(np.dot(beta, x) >= 0.0)`
(`np.squeeze(np.copy(·))` is the identity on the reachable 1-d rows). -/
def predsFor (beta : List ℚ) : List (List ℚ) → Except Err (List ℕ)
  | [] => Except.ok []
  | x :: xs =>
    match npDot beta x with
    | none => Except.error Err.valueError
    | some q => Except.map (fun l => (if 0 ≤ q then 1 else 0) :: l) (predsFor beta xs)

/-- Clipping constant of `sklearn.metrics.log_loss` (`eps = 1e-15`). -/
def epsClip : ℚ := 1 / 10 ^ 15

/-- Probability clipping of `sklearn.metrics.log_loss`. -/
def clipProb (p : ℚ) : ℚ := max epsClip (min (1 - epsClip) p)

/-- Modelled from the spec: `sklearn.metrics.log_loss(y_true, y_pred)` is an
external library call, not code of this repository.  Per the spec's design
note, predicted hard labels are treated as probabilities of the positive
class, clamped away from exact 0 and 1 (sklearn clips at `eps = 1e-15`),
and the result is the negative mean of
`y * log(p) + (1 - y) * log(1 - p)` over the held-out rows. -/
noncomputable def skLogLoss (ytrue : List ℕ) (ypred : List ℕ) : ℝ :=
  -(1 / (ytrue.length : ℝ)) *
    ((List.zip ytrue ypred).map (fun yp =>
      (yp.1 : ℝ) * Real.log ((clipProb (yp.2 : ℚ) : ℚ) : ℝ) +
        (1 - (yp.1 : ℝ)) * Real.log (((1 - clipProb (yp.2 : ℚ) : ℚ) : ℝ)))).sum

/-- Lines 121-136 of `lrhmc.py`: `logloss(sample)`.  For each
`m in range(n_iters)` the row `sample[m, :]` is read (an `IndexError` when
`m` is out of range), the hard predictions are formed, and
`log_loss(y_test, y_pred) / float(n_iters)` is accumulated. -/
noncomputable def logloss (Xtest : List (List ℚ)) (ytest : List ℕ) (niters : ℕ)
    (sample : List (List ℚ)) : Except Err ℝ :=
  (List.range niters).foldl
    (fun acc m => Except.bind acc (fun t =>
      match sample.get? m with
      | none => Except.error Err.indexError
      | some beta =>
          Except.map (fun yp => t + skLogLoss ytest yp / (niters : ℝ))
            (predsFor beta Xtest)))
    (Except.ok 0)

/-- Observable outcome of a successful `postprocess` call (lines 86-118):
the locally computed adjusted sample, the two log-loss values that are
printed by line 118, and the Python return value `ret`.  The method body has
no `return` statement, so the return value is `None`: `ret := none` always;
the field's type is what a caller would need to receive the adjusted sample
and the two losses. -/
structure PostOutput where
  out_sample : List (List ℚ)
  oldll : ℝ
  newll : ℝ
  ret : Option (List (List ℚ) × ℝ × ℝ)

/-- Lines 86-118 of `lrhmc.py`: `postprocess`.  The adjustment runs first;
then `logloss` is evaluated on the original sample and on the adjusted
sample; line 118 prints the two values; the method returns `None`. -/
noncomputable def postprocess (Xtest : List (List ℚ)) (ytest : List ℕ)
    (s g : List (List ℚ)) (niters d : ℕ) : Except Err PostOutput :=
  Except.bind (postAdjust s g niters d) (fun outS =>
    Except.bind (logloss Xtest ytest niters s) (fun oldll =>
      Except.bind (logloss Xtest ytest niters outS) (fun newll =>
        Except.ok { out_sample := outS, oldll := oldll, newll := newll, ret := none })))

/-- The instance state of an `LRHMC` object that `postprocess` and `logloss`
read (`self.X_test`, `self.y_test`, `self.sample`, `self.logpost_sample`,
`self.n_iters`, `self.d`). -/
structure LRState where
  X_test : List (List ℚ)
  y_test : List ℕ
  sample : List (List ℚ)
  logpost_sample : List (List ℚ)
  n_iters : ℕ
  d : ℕ

/-- `postprocess` as a state transformer on the `LRHMC` instance: the method
body (lines 86-118) assigns no attribute of `self` (contrary to its
docstring, `self.sample` is never reassigned), so the state passes through
unchanged alongside the computed output. -/
noncomputable def postprocessS (st : LRState) : Except Err (LRState × PostOutput) :=
  Except.map (fun r => (st, r))
    (postprocess st.X_test st.y_test st.sample st.logpost_sample st.n_iters st.d)

/-! ### Spec-side definitions

The following definitions transcribe the spec's formulas (spec §4.2 steps
3-5 and §4.3) and are compared against the embedded code. -/

/-- Spec §4.2 step 3: the `k`-th entry of `cross_cov_j`, the unbiased sample
covariance (divisor `n - 1`) between sample column `j` and gradient column
`k`, using the fixed means `colMean`. -/
def crossCovSpec (s g : List (List ℚ)) (n : ℕ) (j k : ℕ) : ℚ :=
  (∑ i ∈ Finset.range n,
      ((s.getD i []).getD j 0 - colMean s j) * ((g.getD i []).getD k 0 - colMean g k))
    / ((n : ℚ) - 1)

/-- Spec §4.2 step 4: `a_j = - inverse(var_grad) · cross_cov_j`, with
Mathlib's matrix inverse. -/
noncomputable def aSpec (s g : List (List ℚ)) (n d : ℕ) (j : ℕ) : Fin d → ℚ :=
  fun k => -(∑ l : Fin d, (npCov g d)⁻¹ k l * crossCovSpec s g n j (l : ℕ))

/-- Spec §4.2 step 5: `adjusted[i, j] = sample[i, j] + dot(a_j, gradient[i, :])`
for every draw `i < n` (rows beyond `n`, absent on the reachable inputs,
are zero as in the code's `np.zeros` initialisation). -/
noncomputable def adjustedSpec (s g : List (List ℚ)) (n d : ℕ) : List (List ℚ) :=
  (List.range s.length).map (fun i =>
    (List.range d).map (fun j =>
      if i < n then
        (s.getD i []).getD j 0 + ∑ k : Fin d, aSpec s g n d j k * (g.getD i []).getD (k : ℕ) 0
      else 0))

/-- Closed form of the `current_cov` loop for dimension `j`: the length-`d`
vector of per-gradient-column accumulated covariances (the value the loop of
lines 107-110 computes on in-range inputs). -/
def ccList (s g : List (List ℚ)) (n d : ℕ) (sm gm : List ℚ) (j : ℕ) : List ℚ :=
  (List.range d).map (fun k =>
    ∑ i ∈ Finset.range n,
      1 / ((n : ℚ) - 1) * ((s.getD i []).getD j 0 - sm.getD j 0) *
        ((g.getD i []).getD k 0 - gm.getD k 0))

/-- Spec §4.3: the hard prediction vector for one draw, label 1 exactly when
the dot product of the held-out row with the draw is `≥ 0`. -/
def hardPreds (Xtest : List (List ℚ)) (beta : List ℚ) : List ℕ :=
  Xtest.map (fun x => if 0 ≤ dotQ beta x then 1 else 0)

/-- Spec §4.3: the averaged predictive log-loss,
`∑ m < n, log_loss(y_test, hardPreds(X_test, sample[m])) / n`. -/
noncomputable def loglossSpec (Xtest : List (List ℚ)) (ytest : List ℕ) (n : ℕ)
    (sample : List (List ℚ)) : ℝ :=
  ∑ m ∈ Finset.range n, skLogLoss ytest (hardPreds Xtest (sample.getD m [])) / (n : ℝ)

/-! ### Concrete example data used by witnesses -/

/-- Example held-out covariate matrix (one row, width 2). -/
def exX : List (List ℚ) := [[1, 0]]

/-- Example held-out label vector. -/
def exy : List ℕ := [1]

/-- Example chain of 3 draws in 2 dimensions. -/
def exs : List (List ℚ) := [[1, 0], [0, 1], [1, 1]]

/-- Example gradient sample (3 draws, 2 dimensions) with nonsingular
covariance matrix. -/
def exg : List (List ℚ) := [[1, 0], [0, 1], [0, 0]]

/-- Example fitted-object state built from the example data. -/
def exState : LRState :=
  { X_test := exX, y_test := exy, sample := exs, logpost_sample := exg, n_iters := 3, d := 2 }

/-- The output `postprocess` produces on the example state. -/
noncomputable def exOut : PostOutput :=
  { out_sample := adjustedSpec exs exg 3 2
    oldll := loglossSpec exX exy 3 exs
    newll := loglossSpec exX exy 3 (adjustedSpec exs exg 3 2)
    ret := none }

/-! ### Determinant and inverse bridge to Mathlib -/

theorem detQ_zero (A : Matrix (Fin 0) (Fin 0) ℚ) : detQ A = 1 := rfl

theorem detQ_succ {n : ℕ} (A : Matrix (Fin (n + 1)) (Fin (n + 1)) ℚ) :
    detQ A = ∑ i : Fin (n + 1), (-1) ^ (i : ℕ) * A i 0 * detQ (A.submatrix i.succAbove Fin.succ) :=
  rfl


theorem detQ_eq_det : ∀ {d : ℕ} (A : Matrix (Fin d) (Fin d) ℚ), detQ A = A.det := by
  intro d
  induction d with
  | zero => intro A; rw [Matrix.det_fin_zero, detQ_zero]
  | succ n ih =>
      intro A
      rw [Matrix.det_succ_column_zero, detQ_succ]
      exact Finset.sum_congr rfl fun i _ => by rw [ih]

theorem adjQ_eq_adjugate : ∀ {d : ℕ} (A : Matrix (Fin d) (Fin d) ℚ), adjQ A = A.adjugate := by
  intro d
  cases d with
  | zero => intro A; ext i j; exact i.elim0
  | succ n =>
      intro A
      ext i j
      rw [Matrix.adjugate_fin_succ_eq_det_submatrix, ← detQ_eq_det]
      rfl

/-- On a nonsingular matrix, the embedded `np.linalg.inv` returns Mathlib's
matrix inverse. -/
theorem matInv_ok {d : ℕ} (A : Matrix (Fin d) (Fin d) ℚ) (h : A.det ≠ 0) :
    matInv d A = Except.ok A⁻¹ := by
  rw [matInv, detQ_eq_det, if_neg h, adjQ_eq_adjugate, Matrix.inv_def, Ring.inverse_eq_inv]

/-- On a singular matrix, the embedded `np.linalg.inv` raises the
singular-matrix error. -/
theorem matInv_singular {d : ℕ} (A : Matrix (Fin d) (Fin d) ℚ) (h : A.det = 0) :
    matInv d A = Except.error Err.singularMatrix := by
  rw [matInv, detQ_eq_det, if_pos h]


/-! ### Generic fold lemmas -/

theorem foldl_bind_error {α β : Type} (f : α → β → Except Err α) (l : List β) (e : Err) :
    l.foldl (fun acc m => Except.bind acc (fun t => f t m)) (Except.error e) =
      Except.error e := by
  induction l with
  | nil => rfl
  | cons a l ih => simpa [Except.bind] using ih

theorem range_foldl_bind_ok {α : Type} (f : α → ℕ → Except Err α) (g : α → ℕ → α)
    (init : α) (n : ℕ) (h : ∀ t m, m < n → f t m = Except.ok (g t m)) :
    (List.range n).foldl (fun acc m => Except.bind acc (fun t => f t m)) (Except.ok init) =
      Except.ok ((List.range n).foldl g init) := by
  induction n with
  | zero => rfl
  | succ k ih =>
      rw [List.range_succ, List.foldl_append, List.foldl_append,
        ih (fun t m hm => h t m (Nat.lt_succ_of_lt hm))]
      simpa [Except.bind] using h _ k (Nat.lt_succ_self k)

theorem range_foldl_bind_error {α : Type} (f : α → ℕ → Except Err α) (g : α → ℕ → α)
    (init : α) (n k : ℕ) (e : Err) (hk : k < n)
    (h : ∀ t m, m < k → f t m = Except.ok (g t m))
    (he : ∀ t, f t k = Except.error e) :
    (List.range n).foldl (fun acc m => Except.bind acc (fun t => f t m)) (Except.ok init) =
      Except.error e := by
  induction n with
  | zero => exact absurd hk (Nat.not_lt_zero k)
  | succ j ih =>
      rw [List.range_succ, List.foldl_append]
      rcases Nat.lt_succ_iff_lt_or_eq.mp hk with hlt | rfl
      · rw [ih hlt]
        rfl
      · rw [range_foldl_bind_ok f g init k h]
        simpa [Except.bind] using he _

theorem range_foldl_add (w : ℕ → ℝ) (n : ℕ) :
    (List.range n).foldl (fun t m => t + w m) 0 = ∑ m ∈ Finset.range n, w m := by
  induction n with
  | zero => simp
  | succ k ih => rw [List.range_succ, List.foldl_append, ih, Finset.sum_range_succ]; rfl

theorem range_foldl_snoc {α : Type} (a : ℕ → α) (n : ℕ) :
    (List.range n).foldl (fun l j => l ++ [a j]) [] = (List.range n).map a := by
  induction n with
  | zero => rfl
  | succ k ih => rw [List.range_succ, List.foldl_append, ih, List.map_append]; rfl

/-! ### Predictive evaluation: closed form and failure -/

theorem predsFor_ok (beta : List ℚ) (X : List (List ℚ))
    (h : ∀ x ∈ X, x.length = beta.length) :
    predsFor beta X = Except.ok (hardPreds X beta) := by
  induction X with
  | nil => rfl
  | cons x xs ih =>
      have hx : npDot beta x = some (dotQ beta x) := by
        rw [npDot, if_pos (h x (List.mem_cons_self x xs)).symm]
      rw [predsFor, hx, ih (fun z hz => h z (List.mem_cons_of_mem x hz))]
      rfl

theorem logloss_ok (Xtest : List (List ℚ)) (ytest : List ℕ) (n : ℕ)
    (s : List (List ℚ)) (d : ℕ) (hs : ∀ r ∈ s, r.length = d)
    (hX : ∀ x ∈ Xtest, x.length = d) (hn : n ≤ s.length) :
    logloss Xtest ytest n s = Except.ok (loglossSpec Xtest ytest n s) := by
  rw [logloss, loglossSpec]
  have h : ∀ (t : ℝ) (m : ℕ), m < n →
      (match s.get? m with
        | none => Except.error Err.indexError
        | some beta =>
            Except.map (fun yp => t + skLogLoss ytest yp / (n : ℝ)) (predsFor beta Xtest)) =
        Except.ok (t + skLogLoss ytest (hardPreds Xtest (s.getD m [])) / (n : ℝ)) := by
    intro t m hm
    have hmlt : m < s.length := lt_of_lt_of_le hm hn
    have hget : s.get? m = some s[m] := by
      rw [List.get?_eq_getElem?, List.getElem?_eq_getElem hmlt]
    have hgetD : s.getD m [] = s[m] := by
      rw [List.getD_eq_getElem?_getD, List.getElem?_eq_getElem hmlt]
      rfl
    rw [hget, hgetD]
    show Except.map (fun yp => t + skLogLoss ytest yp / (n : ℝ)) (predsFor s[m] Xtest) = _
    rw [predsFor_ok s[m] Xtest (fun x hx => by
      rw [hX x hx, hs s[m] (List.getElem_mem hmlt)])]
    rfl
  rw [range_foldl_bind_ok _ (fun t m => t + skLogLoss ytest (hardPreds Xtest (s.getD m [])) / (n : ℝ)) 0 n h,
    range_foldl_add]

theorem logloss_indexError (Xtest : List (List ℚ)) (ytest : List ℕ) (n : ℕ)
    (s : List (List ℚ)) (d : ℕ) (hs : ∀ r ∈ s, r.length = d)
    (hX : ∀ x ∈ Xtest, x.length = d) (hn : s.length < n) :
    logloss Xtest ytest n s = Except.error Err.indexError := by
  rw [logloss]
  refine range_foldl_bind_error _
    (fun t m => t + skLogLoss ytest (hardPreds Xtest (s.getD m [])) / (n : ℝ)) 0 n s.length
    Err.indexError hn ?_ ?_
  · intro t m hm
    have hget : s.get? m = some s[m] := by
      rw [List.get?_eq_getElem?, List.getElem?_eq_getElem hm]
    have hgetD : s.getD m [] = s[m] := by
      rw [List.getD_eq_getElem?_getD, List.getElem?_eq_getElem hm]
      rfl
    rw [hget]
    show Except.map (fun yp => t + skLogLoss ytest yp / (n : ℝ)) (predsFor s[m] Xtest) =
      Except.ok (t + skLogLoss ytest (hardPreds Xtest (s.getD m [])) / (n : ℝ))
    rw [hgetD, predsFor_ok s[m] Xtest (fun x hx => by
      rw [hX x hx, hs s[m] (List.getElem_mem hm)])]
    rfl
  · intro t
    have hget : s.get? s.length = none := by
      rw [List.get?_eq_getElem?, List.getElem?_eq_none (le_refl s.length)]
    rw [hget]

/-! ### Permutation invariance of the predictive evaluation -/

theorem sum_range_getD (l : List (List ℚ)) (f : List ℚ → ℝ) :
    ∑ m ∈ Finset.range l.length, f (l.getD m []) = (l.map f).sum := by
  induction l with
  | nil => simp
  | cons a l ih =>
      rw [List.length_cons, Finset.sum_range_succ', List.map_cons, List.sum_cons]
      have h1 : ∀ i : ℕ, ((a :: l).getD (i + 1) []) = l.getD i [] := fun i => by
        rw [List.getD_eq_getElem?_getD, List.getElem?_cons_succ, ← List.getD_eq_getElem?_getD]
      simp only [h1]
      rw [ih]
      have h0 : (a :: l).getD 0 [] = a := rfl
      rw [h0, add_comm]

theorem zip_hardPreds (X : List (List ℚ)) (y : List ℕ) (beta : List ℚ) :
    y.zip (hardPreds X beta) =
      (X.zip y).map (fun p => (p.2, if 0 ≤ dotQ beta p.1 then (1 : ℕ) else 0)) := by
  rw [hardPreds]
  calc y.zip (X.map (fun x => if 0 ≤ dotQ beta x then (1 : ℕ) else 0))
      = (y.map id).zip (X.map (fun x => if 0 ≤ dotQ beta x then (1 : ℕ) else 0)) := by
        rw [List.map_id]
    _ = (y.zip X).map (Prod.map id (fun x => if 0 ≤ dotQ beta x then (1 : ℕ) else 0)) := by
        rw [List.zip_map]
    _ = ((X.zip y).map Prod.swap).map
          (Prod.map id (fun x => if 0 ≤ dotQ beta x then (1 : ℕ) else 0)) := by
        rw [List.zip_swap]
    _ = (X.zip y).map (fun p => (p.2, if 0 ≤ dotQ beta p.1 then (1 : ℕ) else 0)) := by
        rw [List.map_map]
        rfl

theorem skLogLoss_pairperm (X X2 : List (List ℚ)) (y y2 : List ℕ) (beta : List ℚ)
    (hyX : y.length = X.length) (hy2 : y2.length = X2.length)
    (hpair : (X.zip y).Perm (X2.zip y2)) :
    skLogLoss y (hardPreds X beta) = skLogLoss y2 (hardPreds X2 beta) := by
  have hXlen : X.length = X2.length := by
    have hz := hpair.length_eq
    rwa [List.length_zip, List.length_zip, hyX, hy2, min_self, min_self] at hz
  have hylen : y.length = y2.length := by rw [hyX, hy2, hXlen]
  rw [skLogLoss, skLogLoss, hylen, zip_hardPreds, zip_hardPreds, List.map_map, List.map_map]
  have hsum := (hpair.map
    ((fun yp : ℕ × ℕ =>
        (yp.1 : ℝ) * Real.log ((clipProb (yp.2 : ℚ) : ℚ) : ℝ) +
          (1 - (yp.1 : ℝ)) * Real.log (((1 - clipProb (yp.2 : ℚ) : ℚ) : ℝ))) ∘
      (fun p : List ℚ × ℕ => (p.2, if 0 ≤ dotQ beta p.1 then (1 : ℕ) else 0)))).sum_eq
  rw [hsum]

theorem logloss_perm (X X2 : List (List ℚ)) (y y2 : List ℕ) (s s2 : List (List ℚ)) (d : ℕ)
    (hs : ∀ r ∈ s, r.length = d) (hX : ∀ x ∈ X, x.length = d) (hX2 : ∀ x ∈ X2, x.length = d)
    (hyX : y.length = X.length) (hy2 : y2.length = X2.length)
    (hperm : s.Perm s2) (hpair : (X.zip y).Perm (X2.zip y2)) :
    logloss X y s.length s = logloss X2 y2 s2.length s2 := by
  have hs2 : ∀ r ∈ s2, r.length = d := fun r hr => hs r (hperm.mem_iff.mpr hr)
  rw [logloss_ok X y s.length s d hs hX (le_refl _),
    logloss_ok X2 y2 s2.length s2 d hs2 hX2 (le_refl _)]
  have hlen : s.length = s2.length := hperm.length_eq
  have hfun : (fun beta => skLogLoss y (hardPreds X beta) / (s.length : ℝ)) =
      (fun beta => skLogLoss y2 (hardPreds X2 beta) / (s2.length : ℝ)) := by
    funext beta
    rw [skLogLoss_pairperm X X2 y y2 beta hyX hy2 hpair, hlen]
  rw [loglossSpec, loglossSpec,
    sum_range_getD s (fun beta => skLogLoss y (hardPreds X beta) / (s.length : ℝ)),
    sum_range_getD s2 (fun beta => skLogLoss y2 (hardPreds X2 beta) / (s2.length : ℝ)), hfun,
    (hperm.map (fun beta => skLogLoss y2 (hardPreds X2 beta) / (s2.length : ℝ))).sum_eq]

/-! ### Control-variate adjustment: closed form -/

theorem getDz {α : Type} (L : List α) (k : ℕ) (x : α) (h : k < L.length) :
    L.getD k x = L[k] := by
  rw [List.getD_eq_getElem?_getD, List.getElem?_eq_getElem h]
  rfl

theorem dotQ_cons (a b : ℚ) (u v : List ℚ) : dotQ (a :: u) (b :: v) = a * b + dotQ u v := by
  rw [dotQ, dotQ, List.zipWith_cons_cons, List.sum_cons]

theorem dotQ_eq_sum : ∀ u v : List ℚ,
    dotQ u v = ∑ k ∈ Finset.range (min u.length v.length), u.getD k 0 * v.getD k 0
  | [], v => by simp [dotQ]
  | a :: u, [] => by simp [dotQ]
  | a :: u, b :: v => by
      rw [dotQ_cons, dotQ_eq_sum u v, List.length_cons, List.length_cons, Nat.succ_min_succ,
        Finset.sum_range_succ']
      simp only [List.getD_cons_succ, List.getD_cons_zero]
      rw [add_comm]

theorem foldl_zipWith_add (F : ℕ → List ℚ) (d n : ℕ) (hF : ∀ i, i < n → (F i).length = d) :
    (List.range n).foldl (fun cc i => List.zipWith (fun a b => a + b) cc (F i))
        (List.replicate d 0) =
      (List.range d).map (fun k => ∑ i ∈ Finset.range n, (F i).getD k 0) := by
  induction n with
  | zero =>
      refine List.ext_get (by simp) ?_
      intro k h1 h2
      simp [List.getElem_replicate, List.getElem_map, List.getElem_range]
  | succ m ih =>
      rw [List.range_succ, List.foldl_append,
        ih (fun i hi => hF i (Nat.lt_succ_of_lt hi))]
      show List.zipWith _ _ (F m) = _
      refine List.ext_get ?_ ?_
      · rw [List.length_zipWith, List.length_map, List.length_range, List.length_map,
          List.length_range, hF m (Nat.lt_succ_self m), min_self]
      · intro k h1 h2
        have hk : k < d := by
          have := h1
          rw [List.length_zipWith, List.length_map, List.length_range,
            hF m (Nat.lt_succ_self m), min_self] at this
          exact this
        have hklt : k < (F m).length := by rw [hF m (Nat.lt_succ_self m)]; exact hk
        simp only [List.get_eq_getElem, List.getElem_zipWith, List.getElem_map,
          List.getElem_range, Finset.sum_range_succ]
        have hFD : (F m).getD k 0 = (F m)[k] := by
          rw [List.getD_eq_getElem?_getD, List.getElem?_eq_getElem hklt]
          rfl
        rw [hFD]

theorem crossCov_ok (s g : List (List ℚ)) (n d : ℕ) (sm gm : List ℚ) (j : ℕ)
    (hn : 2 ≤ n) (hns : n ≤ s.length) (hng : n ≤ g.length)
    (hwg : ∀ r ∈ g, r.length = d) (hgm : gm.length = d) :
    crossCov s g n d sm gm j = Except.ok (ccList s g n d sm gm j) := by
  have hne : ¬ (n - 1 = 0) := by omega
  rw [ccList, crossCov,
    range_foldl_bind_ok _
      (fun cc i => List.zipWith (fun a b => a + b) cc
        ((List.zipWith (fun a b => a - b) (g.getD i []) gm).map
          (fun x => 1 / ((n : ℚ) - 1) * ((s.getD i []).getD j 0 - sm.getD j 0) * x)))
      (List.replicate d 0) n ?_]
  · rw [foldl_zipWith_add _ d n ?_]
    · refine congrArg Except.ok (List.map_congr_left ?_)
      intro k hk
      rw [List.mem_range] at hk
      refine Finset.sum_congr rfl ?_
      intro i hi
      rw [Finset.mem_range] at hi
      have hgl : (g.getD i []).length = d :=
        hwg _ (by
          have : g.getD i [] = g[i] := by
            rw [List.getD_eq_getElem?_getD, List.getElem?_eq_getElem (lt_of_lt_of_le hi hng)]
            rfl
          rw [this]
          exact List.getElem_mem (lt_of_lt_of_le hi hng))
      have hkz : k < (List.zipWith (fun a b => a - b) (g.getD i []) gm).length := by
        rw [List.length_zipWith, hgl, hgm, min_self]
        exact hk
      have hkm : k < ((List.zipWith (fun a b => a - b) (g.getD i []) gm).map
          (fun x => 1 / ((n : ℚ) - 1) * ((s.getD i []).getD j 0 - sm.getD j 0) * x)).length := by
        rw [List.length_map]
        exact hkz
      rw [List.getD_eq_getElem?_getD, List.getElem?_eq_getElem hkm, Option.getD_some,
        List.getElem_map, List.getElem_zipWith,
        getDz (g.getD i []) k 0 (by rw [hgl]; exact hk), getDz gm k 0 (by rw [hgm]; exact hk)]
    · intro i hi
      rw [List.length_map, List.length_zipWith, hgm]
      have : g.getD i [] = g[i] := by
        rw [List.getD_eq_getElem?_getD, List.getElem?_eq_getElem (lt_of_lt_of_le hi hng)]
        rfl
      rw [this, hwg _ (List.getElem_mem (lt_of_lt_of_le hi hng)), min_self]
  · intro cc i hi
    have hsi : s.get? i = some s[i] := by
      rw [List.get?_eq_getElem?, List.getElem?_eq_getElem (lt_of_lt_of_le hi hns)]
    have hgi : g.get? i = some g[i] := by
      rw [List.get?_eq_getElem?, List.getElem?_eq_getElem (lt_of_lt_of_le hi hng)]
    have hsD : s.getD i [] = s[i] := by
      rw [List.getD_eq_getElem?_getD, List.getElem?_eq_getElem (lt_of_lt_of_le hi hns)]
      rfl
    have hgD : g.getD i [] = g[i] := by
      rw [List.getD_eq_getElem?_getD, List.getElem?_eq_getElem (lt_of_lt_of_le hi hng)]
      rfl
    simp only [if_neg hne, hsi, hgi, hsD, hgD]

theorem meanVec_length (M : List (List ℚ)) (d : ℕ) : (meanVec M d).length = d := by
  rw [meanVec, List.length_map, List.length_range]

theorem meanVec_getD (M : List (List ℚ)) (d j : ℕ) (hj : j < d) :
    (meanVec M d).getD j 0 = colMean M j := by
  rw [meanVec, getDz _ j 0 (by rw [List.length_map, List.length_range]; exact hj),
    List.getElem_map, List.getElem_range]

theorem crossCov_one (s g : List (List ℚ)) (d : ℕ) (sm gm : List ℚ) (j : ℕ) :
    crossCov s g 1 d sm gm j = Except.error Err.zeroDivision := rfl

theorem aCoeff_ok (s g : List (List ℚ)) (n d : ℕ) (vg : Matrix (Fin d) (Fin d) ℚ)
    (sm gm : List ℚ) (j : ℕ) (hn : 2 ≤ n) (hns : n ≤ s.length) (hng : n ≤ g.length)
    (hwg : ∀ r ∈ g, r.length = d) (hgm : gm.length = d) (hdet : vg.det ≠ 0) :
    aCoeff s g n d vg sm gm j =
      Except.ok ((matVecL d vg⁻¹ (ccList s g n d sm gm j)).map (fun x => -x)) := by
  rw [aCoeff, crossCov_ok s g n d sm gm j hn hns hng hwg hgm, matInv_ok vg hdet]
  rfl

theorem aCoeff_singular (s g : List (List ℚ)) (n d : ℕ) (vg : Matrix (Fin d) (Fin d) ℚ)
    (sm gm : List ℚ) (j : ℕ) (hn : 2 ≤ n) (hns : n ≤ s.length) (hng : n ≤ g.length)
    (hwg : ∀ r ∈ g, r.length = d) (hgm : gm.length = d) (hdet : vg.det = 0) :
    aCoeff s g n d vg sm gm j = Except.error Err.singularMatrix := by
  rw [aCoeff, crossCov_ok s g n d sm gm j hn hns hng hwg hgm, matInv_singular vg hdet]
  rfl

theorem aCoeff_one (s g : List (List ℚ)) (d : ℕ) (vg : Matrix (Fin d) (Fin d) ℚ)
    (sm gm : List ℚ) (j : ℕ) :
    aCoeff s g 1 d vg sm gm j = Except.error Err.zeroDivision := by
  rw [aCoeff, crossCov_one]
  rfl

theorem postAdjust_ok (s g : List (List ℚ)) (n d : ℕ) (hn : 2 ≤ n) (hns : n ≤ s.length)
    (hng : n ≤ g.length) (hwg : ∀ r ∈ g, r.length = d) (hdet : (npCov g d).det ≠ 0) :
    postAdjust s g n d = Except.ok ((List.range s.length).map (fun i =>
      (List.range d).map (fun j =>
        if i < n then
          (s.getD i []).getD j 0 +
            dotQ ((matVecL d (npCov g d)⁻¹
                (ccList s g n d (meanVec s d) (meanVec g d) j)).map (fun x => -x))
              (g.getD i [])
        else 0))) := by
  rw [postAdjust,
    range_foldl_bind_ok _
      (fun l j => l ++ [(matVecL d (npCov g d)⁻¹
        (ccList s g n d (meanVec s d) (meanVec g d) j)).map (fun x => -x)]) [] d
      (fun t j _ => by
        rw [aCoeff_ok s g n d (npCov g d) (meanVec s d) (meanVec g d) j hn hns hng hwg
          (meanVec_length g d) hdet]
        rfl),
    range_foldl_snoc]
  show Except.ok _ = Except.ok _
  refine congrArg Except.ok (List.map_congr_left ?_)
  intro i hi
  refine List.map_congr_left ?_
  intro j hj
  rw [List.mem_range] at hj
  have hD : ((List.range d).map (fun j => (matVecL d (npCov g d)⁻¹
      (ccList s g n d (meanVec s d) (meanVec g d) j)).map (fun x => -x))).getD j [] =
      (matVecL d (npCov g d)⁻¹
        (ccList s g n d (meanVec s d) (meanVec g d) j)).map (fun x => -x) := by
    rw [getDz _ j [] (by rw [List.length_map, List.length_range]; exact hj),
      List.getElem_map, List.getElem_range]
  rw [hD]

theorem ccList_getD (s g : List (List ℚ)) (n d : ℕ) (j l : ℕ) (hj : j < d) (hl : l < d) :
    (ccList s g n d (meanVec s d) (meanVec g d) j).getD l 0 = crossCovSpec s g n j l := by
  rw [ccList, getDz _ l 0 (by rw [List.length_map, List.length_range]; exact hl),
    List.getElem_map, List.getElem_range, crossCovSpec, Finset.sum_div]
  refine Finset.sum_congr rfl fun i _ => ?_
  rw [meanVec_getD s d j hj, meanVec_getD g d l hl]
  ring

theorem dotQ_negMatVec (d : ℕ) (A : Matrix (Fin d) (Fin d) ℚ) (v gi : List ℚ)
    (hgi : gi.length = d) :
    dotQ ((matVecL d A v).map (fun x => -x)) gi =
      ∑ k : Fin d, (-(∑ l : Fin d, A k l * v.getD (l : ℕ) 0)) * gi.getD (k : ℕ) 0 := by
  have hlen : ((matVecL d A v).map (fun x => -x)).length = d := by
    rw [List.length_map, matVecL, List.length_ofFn]
  rw [dotQ_eq_sum, hlen, hgi, min_self,
    ← Fin.sum_univ_eq_sum_range
      (fun k => ((matVecL d A v).map (fun x => -x)).getD k 0 * gi.getD k 0) d]
  refine Finset.sum_congr rfl fun k _ => ?_
  have hk : (k : ℕ) < ((matVecL d A v).map (fun x => -x)).length := by
    rw [hlen]; exact k.isLt
  have hk2 : (k : ℕ) < (matVecL d A v).length := by
    rw [matVecL, List.length_ofFn]
    exact k.isLt
  rw [getDz _ (k : ℕ) 0 hk, List.getElem_map]
  have hk3 : (k : ℕ) < (List.ofFn (fun k : Fin d => ∑ l : Fin d, A k l * v.getD (l : ℕ) 0)).length := by
    rw [List.length_ofFn]
    exact k.isLt
  show -(List.ofFn (fun k : Fin d => ∑ l : Fin d, A k l * v.getD (l : ℕ) 0))[(k : ℕ)] *
      gi.getD (k : ℕ) 0 = _
  rw [List.getElem_ofFn]

theorem postAdjust_spec (s g : List (List ℚ)) (n d : ℕ) (hn : 2 ≤ n) (hns : n ≤ s.length)
    (hng : n ≤ g.length) (hwg : ∀ r ∈ g, r.length = d) (hdet : (npCov g d).det ≠ 0) :
    postAdjust s g n d = Except.ok (adjustedSpec s g n d) := by
  rw [postAdjust_ok s g n d hn hns hng hwg hdet, adjustedSpec]
  refine congrArg Except.ok (List.map_congr_left ?_)
  intro i hi
  rw [List.mem_range] at hi
  refine List.map_congr_left ?_
  intro j hj
  rw [List.mem_range] at hj
  by_cases hin : i < n
  · rw [if_pos hin, if_pos hin]
    congr 1
    have hgi : (g.getD i []).length = d := by
      rw [getDz g i [] (lt_of_lt_of_le hin hng)]
      exact hwg _ (List.getElem_mem (lt_of_lt_of_le hin hng))
    rw [dotQ_negMatVec d ((npCov g d)⁻¹)
      (ccList s g n d (meanVec s d) (meanVec g d) j) (g.getD i []) hgi]
    refine Finset.sum_congr rfl fun k _ => ?_
    rw [aSpec]
    congr 2
    refine Finset.sum_congr rfl fun l _ => ?_
    rw [ccList_getD s g n d j (l : ℕ) hj l.isLt]
  · rw [if_neg hin, if_neg hin]

/-! ### Failure paths of the adjustment, and plumbing of `postprocess` -/

theorem bind_eq_ok {α β : Type} {F : Except Err α} {k : α → Except Err β} {b : β}
    (h : Except.bind F k = Except.ok b) : ∃ x, F = Except.ok x ∧ k x = Except.ok b := by
  cases F with
  | error e => exact absurd h (by simp [Except.bind])
  | ok x => exact ⟨x, rfl, h⟩

theorem postAdjust_singular (s g : List (List ℚ)) (n d : ℕ) (hn : 2 ≤ n)
    (hns : n ≤ s.length) (hng : n ≤ g.length) (hwg : ∀ r ∈ g, r.length = d)
    (hd : 0 < d) (hdet : (npCov g d).det = 0) :
    postAdjust s g n d = Except.error Err.singularMatrix := by
  rw [postAdjust,
    range_foldl_bind_error _ (fun l j => l) [] d 0 Err.singularMatrix hd
      (fun t m hm => absurd hm (Nat.not_lt_zero m))
      (fun t => by
        rw [aCoeff_singular s g n d (npCov g d) (meanVec s d) (meanVec g d) 0 hn hns hng hwg
          (meanVec_length g d) hdet]
        rfl)]
  rfl

theorem postAdjust_oneIter (s g : List (List ℚ)) (d : ℕ) (hd : 0 < d) :
    postAdjust s g 1 d = Except.error Err.zeroDivision := by
  rw [postAdjust,
    range_foldl_bind_error _ (fun l j => l) [] d 0 Err.zeroDivision hd
      (fun t m hm => absurd hm (Nat.not_lt_zero m))
      (fun t => by
        rw [aCoeff_one s g d (npCov g d) (meanVec s d) (meanVec g d) 0]
        rfl)]
  rfl

theorem outSample_shape (s g : List (List ℚ)) (n d : ℕ) (as : List (List ℚ)) :
    (outSample s g n d as).length = s.length ∧ ∀ r ∈ outSample s g n d as, r.length = d := by
  constructor
  · rw [outSample, List.length_map, List.length_range]
  · intro r hr
    rw [outSample, List.mem_map] at hr
    obtain ⟨i, _, rfl⟩ := hr
    rw [List.length_map, List.length_range]

theorem postAdjust_shape (s g : List (List ℚ)) (n d : ℕ) (A : List (List ℚ))
    (h : postAdjust s g n d = Except.ok A) :
    A.length = s.length ∧ ∀ r ∈ A, r.length = d := by
  rw [postAdjust] at h
  obtain ⟨as, -, hk⟩ := bind_eq_ok h
  have hA : outSample s g n d as = A := by
    injection hk
  rw [← hA]
  exact outSample_shape s g n d as

theorem postprocess_ok (Xtest : List (List ℚ)) (ytest : List ℕ) (s g : List (List ℚ))
    (n d : ℕ) (A : List (List ℚ)) (lo ln : ℝ)
    (hA : postAdjust s g n d = Except.ok A)
    (hold : logloss Xtest ytest n s = Except.ok lo)
    (hnew : logloss Xtest ytest n A = Except.ok ln) :
    postprocess Xtest ytest s g n d =
      Except.ok { out_sample := A, oldll := lo, newll := ln, ret := none } := by
  rw [postprocess, hA]
  show Except.bind (logloss Xtest ytest n s) _ = _
  rw [hold]
  show Except.bind (logloss Xtest ytest n A) _ = _
  rw [hnew]
  rfl

theorem postprocess_errorAdjust (Xtest : List (List ℚ)) (ytest : List ℕ)
    (s g : List (List ℚ)) (n d : ℕ) (e : Err)
    (hA : postAdjust s g n d = Except.error e) :
    postprocess Xtest ytest s g n d = Except.error e := by
  rw [postprocess, hA]
  rfl

theorem getD_zero_of_zero (r : List ℚ) (hz : ∀ q ∈ r, q = 0) (k : ℕ) : r.getD k 0 = 0 := by
  rcases Nat.lt_or_ge k r.length with hk | hk
  · rw [getDz r k 0 hk]
    exact hz _ (List.getElem_mem hk)
  · rw [List.getD_eq_getElem?_getD, List.getElem?_eq_none hk]
    rfl

theorem npCov_zeroGrad (g : List (List ℚ)) (d : ℕ)
    (hzero : ∀ r ∈ g, ∀ q ∈ r, q = 0) : npCov g d = 0 := by
  have hcol : ∀ k : ℕ, colMean g k = 0 := by
    intro k
    rw [colMean, List.sum_eq_zero, zero_div]
    intro x hx
    rw [List.mem_map] at hx
    obtain ⟨r, hr, rfl⟩ := hx
    exact getD_zero_of_zero r (hzero r hr) k
  ext k l
  show ((g.map (fun r =>
      (r.getD (k : ℕ) 0 - colMean g (k : ℕ)) * (r.getD (l : ℕ) 0 - colMean g (l : ℕ)))).sum)
      / (((g.length - 1 : ℕ) : ℚ)) = 0
  rw [List.sum_eq_zero, zero_div]
  intro x hx
  rw [List.mem_map] at hx
  obtain ⟨r, hr, rfl⟩ := hx
  rw [getD_zero_of_zero r (hzero r hr), getD_zero_of_zero r (hzero r hr), hcol, hcol]
  ring

theorem postprocess_ok_inv (Xtest : List (List ℚ)) (ytest : List ℕ) (s g : List (List ℚ))
    (n d : ℕ) (out : PostOutput) (h : postprocess Xtest ytest s g n d = Except.ok out) :
    ∃ A lo ln, postAdjust s g n d = Except.ok A ∧
      out = { out_sample := A, oldll := lo, newll := ln, ret := none } := by
  rw [postprocess] at h
  obtain ⟨A, hA, h2⟩ := bind_eq_ok h
  obtain ⟨lo, hlo, h3⟩ := bind_eq_ok h2
  obtain ⟨ln, hln, h4⟩ := bind_eq_ok h3
  refine ⟨A, lo, ln, hA, ?_⟩
  injection h4 with h4
  exact h4.symm

/-- Fully evaluated outcome of `postprocess` on the example data: the
adjustment succeeds (the example gradient covariance is nonsingular), both
log-loss evaluations succeed, and the method's return value is `None`. -/
theorem postprocess_example_eq :
    postprocess exX exy exs exg 3 2 =
      Except.ok { out_sample := adjustedSpec exs exg 3 2
                  oldll := loglossSpec exX exy 3 exs
                  newll := loglossSpec exX exy 3 (adjustedSpec exs exg 3 2)
                  ret := none } := by
  have hdet : (npCov exg 2).det ≠ 0 := by
    rw [← detQ_eq_det]
    decide
  have hA := postAdjust_spec exs exg 3 2 (by decide) (by decide) (by decide) (by decide) hdet
  have hsh := postAdjust_shape exs exg 3 2 _ hA
  have hlen : (3 : ℕ) ≤ (adjustedSpec exs exg 3 2).length := by
    rw [hsh.1]
    decide
  exact postprocess_ok exX exy exs exg 3 2 _ _ _ hA
    (logloss_ok exX exy 3 exs 2 (by decide) (by decide) (by decide))
    (logloss_ok exX exy 3 (adjustedSpec exs exg 3 2) 2 hsh.2 (by decide) hlen)

/-! ### Claims -/

/-- C7: for every sample of at least `n_iters` draws and every held-out set
whose covariate width equals the parameter dimension, the predictive
evaluation returns the sum over draws `m < n_iters` of `logloss_m / n_iters`,
where `logloss_m` is the log-loss against the true held-out labels of the
hard predictions that assign label 1 to a held-out row exactly when the dot
product of its covariates with draw `m` is `≥ 0.0` (this is `loglossSpec`). -/
theorem claim7_logloss_formula (X : List (List ℚ)) (y : List ℕ) (s : List (List ℚ))
    (n d : ℕ) (hws : ∀ r ∈ s, r.length = d) (hX : ∀ x ∈ X, x.length = d)
    (hn : n ≤ s.length) :
    logloss X y n s = Except.ok (loglossSpec X y n s) :=
  logloss_ok X y n s d hws hX hn

theorem claim7_witness :
    (2 ≤ ([[(1 : ℚ)], [2]] : List (List ℚ)).length) ∧
      logloss [[(1 : ℚ)]] [1] 2 [[(1 : ℚ)], [2]] =
        Except.ok (loglossSpec [[(1 : ℚ)]] [1] 2 [[(1 : ℚ)], [2]]) :=
  ⟨by decide,
    claim7_logloss_formula [[(1 : ℚ)]] [1] [[(1 : ℚ)], [2]] 2 1 (by decide) (by decide)
      (by decide)⟩

/-- C8: the predictive log-loss over all draws is unchanged by permuting the
draws, and unchanged by permuting the held-out rows with each covariate row
moved together with its paired label. -/
theorem claim8_permutation_invariance (X X2 : List (List ℚ)) (y y2 : List ℕ)
    (s s2 : List (List ℚ)) (d : ℕ)
    (hs : ∀ r ∈ s, r.length = d) (hX : ∀ x ∈ X, x.length = d)
    (hX2 : ∀ x ∈ X2, x.length = d)
    (hyX : y.length = X.length) (hy2 : y2.length = X2.length)
    (hperm : s.Perm s2) (hpair : (X.zip y).Perm (X2.zip y2)) :
    logloss X y s.length s = logloss X2 y2 s2.length s2 :=
  logloss_perm X X2 y y2 s s2 d hs hX hX2 hyX hy2 hperm hpair

theorem claim8_witness :
    (([[(1 : ℚ)], [2]] : List (List ℚ)).Perm [[2], [1]]) ∧
      logloss [[(1 : ℚ)], [-1]] [1, 0] ([[(1 : ℚ)], [2]] : List (List ℚ)).length
          [[(1 : ℚ)], [2]] =
        logloss [[(-1 : ℚ)], [1]] [0, 1] ([[(2 : ℚ)], [1]] : List (List ℚ)).length
          [[(2 : ℚ)], [1]] :=
  ⟨by decide,
    claim8_permutation_invariance [[(1 : ℚ)], [-1]] [[(-1 : ℚ)], [1]] [1, 0] [0, 1]
      [[(1 : ℚ)], [2]] [[(2 : ℚ)], [1]] 1 (by decide) (by decide) (by decide) (by decide)
      (by decide) (by decide) (by decide)⟩

/-- C9: the control-variate adjustment and the predictive evaluation are
deterministic pure functions of their inputs: on equal inputs they produce
equal outputs. -/
theorem claim9_determinism (s1 s2 g1 g2 X1 X2 : List (List ℚ)) (y1 y2 : List ℕ)
    (n d m : ℕ) (hs : s1 = s2) (hg : g1 = g2) (hX : X1 = X2) (hy : y1 = y2) :
    postAdjust s1 g1 n d = postAdjust s2 g2 n d ∧
      logloss X1 y1 m s1 = logloss X2 y2 m s2 := by
  subst hs
  subst hg
  subst hX
  subst hy
  exact ⟨rfl, rfl⟩

theorem claim9_witness :
    postAdjust exs exg 3 2 = postAdjust exs exg 3 2 ∧
      logloss exX exy 3 exs = logloss exX exy 3 exs :=
  claim9_determinism exs exs exg exg exX exX exy exy 3 2 3 rfl rfl rfl rfl

/-- C10: for a chain with exactly one draw (`n_iters = 1`), the
cross-covariance divisor `n_iters - 1` is zero and `postprocess` fails with
the division-by-zero error before producing any adjusted sample. -/
theorem claim10_single_draw_zero_division (X : List (List ℚ)) (y : List ℕ)
    (s g : List (List ℚ)) (d : ℕ) (hs : s.length = 1) (hg : g.length = 1) (hd : 0 < d) :
    postprocess X y s g 1 d = Except.error Err.zeroDivision :=
  postprocess_errorAdjust X y s g 1 d Err.zeroDivision (postAdjust_oneIter s g d hd)

theorem claim10_witness :
    (([[(1 : ℚ)]] : List (List ℚ)).length = 1) ∧
      postprocess [[(1 : ℚ)]] [1] [[(1 : ℚ)]] [[(2 : ℚ)]] 1 1 =
        Except.error Err.zeroDivision :=
  ⟨by decide,
    claim10_single_draw_zero_division [[(1 : ℚ)]] [1] [[(1 : ℚ)]] [[(2 : ℚ)]] 1 (by decide)
      (by decide) (by decide)⟩

/-- C5, counterexample to the claim as stated: with 2 available draws and a
requested `n_iters = 3`, `logloss` fails with the out-of-bounds `IndexError`
of the row read `sample[m, :]`, not with a ShapeMismatch validation error
(the code contains no such explicit check). -/
theorem claim5_counterexample :
    logloss [[(1 : ℚ)]] [1] 3 [[(1 : ℚ)], [2]] = Except.error Err.indexError ∧
      Err.indexError ≠ Err.shapeMismatch :=
  ⟨rfl, by decide⟩

/-- C5, amended: a requested `n_iters` equal to the number of available
draws succeeds, and a requested `n_iters` exceeding the available draws is
not silently clipped: it fails, with the `IndexError` raised by out-of-range
row indexing in the evaluation loop rather than an explicit ShapeMismatch
validation. -/
theorem claim5_boundary_niters (X : List (List ℚ)) (y : List ℕ) (s : List (List ℚ))
    (d : ℕ) (hws : ∀ r ∈ s, r.length = d) (hX : ∀ x ∈ X, x.length = d) :
    logloss X y s.length s = Except.ok (loglossSpec X y s.length s) ∧
      ∀ n, s.length < n → logloss X y n s = Except.error Err.indexError :=
  ⟨logloss_ok X y s.length s d hws hX (le_refl _),
    fun n hn => logloss_indexError X y n s d hws hX hn⟩

theorem claim5_witness :
    (∀ r ∈ ([[(1 : ℚ)], [2]] : List (List ℚ)), r.length = 1) ∧
      (logloss [[(1 : ℚ)]] [1] ([[(1 : ℚ)], [2]] : List (List ℚ)).length
          [[(1 : ℚ)], [2]] =
        Except.ok (loglossSpec [[(1 : ℚ)]] [1] ([[(1 : ℚ)], [2]] : List (List ℚ)).length
          [[(1 : ℚ)], [2]]) ∧
      ∀ n, ([[(1 : ℚ)], [2]] : List (List ℚ)).length < n →
        logloss [[(1 : ℚ)]] [1] n [[(1 : ℚ)], [2]] = Except.error Err.indexError) :=
  ⟨by decide, claim5_boundary_niters [[(1 : ℚ)]] [1] [[(1 : ℚ)], [2]] 1 (by decide) (by decide)⟩

/-- C2: for a chain of `n_iters` draws with `n_iters ≥ 2` whose gradient
covariance is invertible, the adjustment computes, for every dimension `j`,
`cross_cov_j` as the unbiased sample covariance (divisor `n_iters - 1`, with
the fixed means) between sample column `j` and each gradient column, sets
`a_j = - inverse(var_grad) · cross_cov_j`, and sets
`adjusted[i, j] = sample[i, j] + dot(a_j, gradient[i, :])` for every draw
`i` — that is, it returns exactly `adjustedSpec`, the transcription of the
spec's formulas with Mathlib's matrix inverse. -/
theorem claim2_control_variate_formula (s g : List (List ℚ)) (n d : ℕ)
    (hs : s.length = n) (hg : g.length = n) (hn : 2 ≤ n)
    (hwg : ∀ r ∈ g, r.length = d) (hdet : (npCov g d).det ≠ 0) :
    postAdjust s g n d = Except.ok (adjustedSpec s g n d) :=
  postAdjust_spec s g n d hn (le_of_eq hs.symm) (le_of_eq hg.symm) hwg hdet

theorem claim2_witness :
    ((npCov exg 2).det ≠ 0) ∧ postAdjust exs exg 3 2 = Except.ok (adjustedSpec exs exg 3 2) :=
  ⟨by rw [← detQ_eq_det]; decide,
    claim2_control_variate_formula exs exg 3 2 (by decide) (by decide) (by decide) (by decide)
      (by rw [← detQ_eq_det]; decide)⟩

/-- C4: for every chain (of at least two draws, so that the covariance loop
itself does not raise first) whose gradient covariance matrix `var_grad` is
singular — `det = 0`, i.e. not invertible over `ℚ` — `postprocess` fails
with the singular-covariance error (`numpy.linalg.LinAlgError`, the code's
concrete form of the spec's SingularCovariance) rather than returning any
result built from NaN/Inf values or a pseudo-inverse. -/
theorem claim4_singular_covariance_error (X : List (List ℚ)) (y : List ℕ)
    (s g : List (List ℚ)) (n d : ℕ) (hn : 2 ≤ n) (hs : n ≤ s.length) (hg : n ≤ g.length)
    (hwg : ∀ r ∈ g, r.length = d) (hd : 0 < d) (hdet : (npCov g d).det = 0) :
    postprocess X y s g n d = Except.error Err.singularMatrix :=
  postprocess_errorAdjust X y s g n d Err.singularMatrix
    (postAdjust_singular s g n d hn hs hg hwg hd hdet)

theorem claim4_witness :
    ((npCov [[(1 : ℚ), 5], [1, 7], [1, 6]] 2).det = 0) ∧
      postprocess exX exy exs [[(1 : ℚ), 5], [1, 7], [1, 6]] 3 2 =
        Except.error Err.singularMatrix :=
  ⟨by rw [← detQ_eq_det]; decide,
    claim4_singular_covariance_error exX exy exs [[(1 : ℚ), 5], [1, 7], [1, 6]] 3 2
      (by decide) (by decide) (by decide) (by decide) (by decide)
      (by rw [← detQ_eq_det]; decide)⟩

/-- C3, counterexample to the claim as stated: on an all-zero gradient
sample the postprocess does not succeed with the adjusted sample equal to
the original; it fails, because `var_grad` is the zero matrix and
`np.linalg.inv` raises on it. -/
theorem claim3_counterexample :
    postprocess [[(1 : ℚ), 0]] [1] [[(1 : ℚ), 0], [0, 1]] [[(0 : ℚ), 0], [0, 0]] 2 2 =
      Except.error Err.singularMatrix :=
  postprocess_errorAdjust [[(1 : ℚ), 0]] [1] [[(1 : ℚ), 0], [0, 1]] [[(0 : ℚ), 0], [0, 0]]
    2 2 Err.singularMatrix (by decide)

/-- C3, amended: if the gradient sample is all-zero then the cross-covariance
is indeed zero, but `var_grad` is the zero matrix, which is singular, so the
control-variate postprocess fails with the singular-covariance error instead
of succeeding and returning the original sample. -/
theorem claim3_zero_gradient_fails (X : List (List ℚ)) (y : List ℕ)
    (s g : List (List ℚ)) (n d : ℕ) (hn : 2 ≤ n) (hs : n ≤ s.length) (hg : n ≤ g.length)
    (hwg : ∀ r ∈ g, r.length = d) (hd : 0 < d)
    (hzero : ∀ r ∈ g, ∀ q ∈ r, q = 0) :
    postprocess X y s g n d = Except.error Err.singularMatrix :=
  postprocess_errorAdjust X y s g n d Err.singularMatrix
    (postAdjust_singular s g n d hn hs hg hwg hd
      (by rw [npCov_zeroGrad g d hzero]
          exact Matrix.det_zero (Fin.pos_iff_nonempty.mp hd)))

theorem claim3_witness :
    (∀ r ∈ ([[(0 : ℚ), 0], [0, 0]] : List (List ℚ)), ∀ q ∈ r, q = 0) ∧
      postprocess exX exy [[(1 : ℚ), 0], [0, 1]] [[(0 : ℚ), 0], [0, 0]] 2 2 =
        Except.error Err.singularMatrix :=
  ⟨by decide,
    claim3_zero_gradient_fails exX exy [[(1 : ℚ), 0], [0, 1]] [[(0 : ℚ), 0], [0, 0]] 2 2
      (by decide) (by decide) (by decide) (by decide) (by decide) (by decide)⟩

/-- C1, counterexample to the claim as stated: on a fitted chain on which
the whole pipeline succeeds, the Python return value of `postprocess` (the
`ret` field; the method body has no `return` statement) is `None` — the
adjusted sample matrix and the two log-loss values are not returned to the
caller. -/
theorem claim1_counterexample :
    Except.map PostOutput.ret (postprocess exX exy exs exg 3 2) = Except.ok none := by
  rw [postprocess_example_eq]
  rfl

/-- C1, amended: on every fitted chain on which the adjustment succeeds,
`postprocess` computes the adjusted sample matrix (of the same shape as the
input sample) and the two scalar log-loss values (on the original sample and
on the adjusted sample), but it prints the two losses (line 118) and returns
`None`; neither the adjusted matrix nor the loss values are returned to the
caller. -/
theorem claim1_postprocess_prints_and_returns_none (X : List (List ℚ)) (y : List ℕ)
    (s g : List (List ℚ)) (n d : ℕ) (hn : 2 ≤ n) (hns : n ≤ s.length) (hng : n ≤ g.length)
    (hws : ∀ r ∈ s, r.length = d) (hwg : ∀ r ∈ g, r.length = d)
    (hX : ∀ x ∈ X, x.length = d) (hdet : (npCov g d).det ≠ 0) :
    ∃ lo ln : ℝ,
      postprocess X y s g n d =
        Except.ok { out_sample := adjustedSpec s g n d, oldll := lo, newll := ln,
                    ret := none } ∧
      logloss X y n s = Except.ok lo ∧
      logloss X y n (adjustedSpec s g n d) = Except.ok ln ∧
      (adjustedSpec s g n d).length = s.length ∧
      ∀ r ∈ adjustedSpec s g n d, r.length = d := by
  have hA := postAdjust_spec s g n d hn hns hng hwg hdet
  have hsh := postAdjust_shape s g n d _ hA
  have hold := logloss_ok X y n s d hws hX hns
  have hnew := logloss_ok X y n (adjustedSpec s g n d) d hsh.2 hX (hsh.1 ▸ hns)
  exact ⟨loglossSpec X y n s, loglossSpec X y n (adjustedSpec s g n d),
    postprocess_ok X y s g n d _ _ _ hA hold hnew, hold, hnew, hsh.1, hsh.2⟩

theorem claim1_witness :
    ((npCov exg 2).det ≠ 0) ∧
      ∃ lo ln : ℝ,
        postprocess exX exy exs exg 3 2 =
          Except.ok { out_sample := adjustedSpec exs exg 3 2, oldll := lo, newll := ln,
                      ret := none } ∧
        logloss exX exy 3 exs = Except.ok lo ∧
        logloss exX exy 3 (adjustedSpec exs exg 3 2) = Except.ok ln ∧
        (adjustedSpec exs exg 3 2).length = exs.length ∧
        ∀ r ∈ adjustedSpec exs exg 3 2, r.length = 2 :=
  ⟨by rw [← detQ_eq_det]; decide,
    claim1_postprocess_prints_and_returns_none exX exy exs exg 3 2 (by decide) (by decide)
      (by decide) (by decide) (by decide) (by decide) (by rw [← detQ_eq_det]; decide)⟩

/-- C6: whenever `postprocess` completes on an `LRHMC` state, the state is
unchanged — in particular the stored sample and gradient sample are exactly
the original ones (`postprocess` assigns no attribute; the docstring's claim
that it updates `self.sample` is not what the code does, which is what this
claim requires) — and the adjusted sample is a separate freshly built array
of the same shape as the input sample. -/
theorem claim6_no_mutation (st st2 : LRState) (out : PostOutput)
    (h : postprocessS st = Except.ok (st2, out)) :
    st2 = st ∧ out.out_sample.length = st.sample.length ∧
      ∀ r ∈ out.out_sample, r.length = st.d := by
  rw [postprocessS] at h
  cases hp : postprocess st.X_test st.y_test st.sample st.logpost_sample st.n_iters st.d with
  | error e =>
      rw [hp] at h
      exact absurd h (by simp [Except.map])
  | ok r =>
      rw [hp] at h
      simp only [Except.map] at h
      injection h with h
      have hst : st2 = st := (congrArg Prod.fst h).symm
      have hout : r = out := congrArg Prod.snd h
      obtain ⟨A, lo, ln, hA, hr⟩ := postprocess_ok_inv _ _ _ _ _ _ r hp
      have hsh := postAdjust_shape _ _ _ _ _ hA
      have hAo : out.out_sample = A := by
        rw [← hout, hr]
      rw [hAo]
      exact ⟨hst, hsh.1, hsh.2⟩

theorem claim6_witness :
    postprocessS exState = Except.ok (exState, exOut) ∧
      (exState = exState ∧ exOut.out_sample.length = exState.sample.length ∧
        ∀ r ∈ exOut.out_sample, r.length = exState.d) := by
  have hp : postprocessS exState = Except.ok (exState, exOut) := by
    show Except.map _ (postprocess exX exy exs exg 3 2) = _
    rw [postprocess_example_eq]
    rfl
  exact ⟨hp, claim6_no_mutation exState exState exOut hp⟩

end LCV
